import Mathlib

/-!
# Shallow embedding of the jQuery.timer v1.0.3 plugin

Source: `src/build/jquery.timer-1.0.3.js`.

Modelling choices:
* JavaScript numbers stored in `_maxCount` can be `Number.POSITIVE_INFINITY`;
  they are modelled by `JNum` (`fin : Int` or `inf`).  All wall-clock times and
  delays are modelled as `Int` milliseconds.
* Every operation that reads `(new Date()).getTime()` takes the current
  wall-clock time as an explicit parameter `now : Int`; within one synchronous
  operation all reads of the clock return the same `now`.
* The host scheduler (`setTimeout` / `setInterval` / `clearTimeout` /
  `clearInterval`) is modelled inside the `Sys` state: `pending` holds the at
  most one outstanding scheduled callback (handle id and kind), `nextId` is the
  id counter.  `clearTimeout(h)`/`clearInterval(h)` cancel the pending entry
  exactly when `h` matches its id (a stale or null handle is a no-op, as in the
  host environment).
* The user callback is opaque: it is identified by the token `_callback` and,
  as in the plugin's intended use captured by the spec's scenarios, does not
  mutate the timer.  Instead each invocation is recorded in the ghost fields
  `fired` (number of invocations) and `lastCb` (the value of `_count` visible
  to the callback at its most recent invocation, i.e. what `getCount()`
  returns during/immediately after that firing).
* A scheduled tick being delivered by the event loop is the `fire` event: it
  runs the handler closure from the source (`setTimeout` handler for a
  `timeout` pending entry, `setInterval` handler for an `interval` one) and is
  a no-op when nothing is pending.
-/

namespace JQueryTimer

/-- A JavaScript number that is either a finite integer or `POSITIVE_INFINITY`
(the only non-finite value the plugin stores, in `_maxCount`). -/
inductive JNum where
  | fin (n : Int) : JNum
  | inf : JNum
deriving DecidableEq, Repr

/-- Comparison `x > 0` on JavaScript numbers (`Infinity > 0` is true). -/
def JNum.isPos : JNum → Bool
  | .fin n => 0 < n
  | .inf => true

/-- Decrement `x - 1` on JavaScript numbers (`Infinity - 1` is `Infinity`). -/
def JNum.dec : JNum → JNum
  | .fin n => .fin (n - 1)
  | .inf => .inf

/-- Predicate `0 ≤ x` on JavaScript numbers. -/
def JNum.nonneg : JNum → Prop
  | .fin n => 0 ≤ n
  | .inf => True

instance : DecidablePred JNum.nonneg := fun x => by
  cases x <;> simp [JNum.nonneg] <;> infer_instance

/-- The three timer states: `Timer.STOP`, `Timer.PLAY`, `Timer.PAUSE`. -/
inductive TState where
  | stop
  | play
  | pause
deriving DecidableEq, Repr

/-- Kind of a scheduled callback: `setTimeout` (one-shot) or `setInterval`
(periodic). -/
inductive SKind where
  | timeout
  | interval
deriving DecidableEq, Repr

/-- The fields of a `Timer` instance, as set up by the `Timer(delay, callback)`
constructor.  `_callback` is an opaque token identifying the callback
function. -/
structure Timer where
  _delay : Int
  _callback : Nat
  _maxCount : JNum
  _count : Int
  _pausedTime : Int
  _currentTime : Int
  _lastTime : Int
  _interval : Option Nat
  _state : TState
deriving DecidableEq, Repr

/-- A timer together with the host-scheduler state and ghost observation
fields. -/
structure Sys where
  t : Timer
  /-- The at most one outstanding scheduled callback: handle id and kind. -/
  pending : Option (Nat × SKind)
  /-- Next fresh handle id. -/
  nextId : Nat
  /-- Ghost: number of times the user callback has been invoked. -/
  fired : Nat
  /-- Ghost: value of `_count` at the most recent callback invocation. -/
  lastCb : Option Int
deriving DecidableEq, Repr

/-- Embedding of `clearTimeout(h)` / `clearInterval(h)`: cancels the pending scheduled
callback exactly when `h` is its id. -/
def clearHandle (h : Option Nat) (p : Option (Nat × SKind)) :
    Option (Nat × SKind) :=
  match h, p with
  | some i, some (j, _) => if j = i then none else p
  | _, _ => p

/-- The `Timer(delay, callback)` constructor, called at wall-clock `now`. -/
def mkSys (delay : Int) (callback : Nat) (now : Int) : Sys :=
  { t := { _delay := delay
           _callback := callback
           _maxCount := .inf
           _count := 0
           _pausedTime := 0
           _currentTime := now
           _lastTime := now
           _interval := none
           _state := .stop }
    pending := none
    nextId := 0
    fired := 0
    lastCb := none }

/-- Embedding of `Timer.prototype.getCount`. -/
def getCount (s : Sys) : Int := s.t._count

/-- Embedding of `Timer.prototype.getState`. -/
def getState (s : Sys) : TState := s.t._state

/-- Embedding of `Timer.prototype.isRunning`. -/
def isRunning (s : Sys) : Bool := getState s = TState.play

/-- Embedding of `Timer.prototype.getCurrentTime`: `now - _pausedTime` while running,
otherwise the frozen `_currentTime`. -/
def getCurrentTime (now : Int) (s : Sys) : Int :=
  if isRunning s then now - s.t._pausedTime else s.t._currentTime

/-- Embedding of `Timer.prototype.getElapsedTime`. -/
def getElapsedTime (now : Int) (s : Sys) : Int :=
  getCurrentTime now s - s.t._lastTime

/-- Embedding of `Math.ceil(a / b)` for integer `a` and positive integer `b`, as computed
by the JavaScript real-number division followed by `Math.ceil`.  For `0 < b`
this equals `⌈(a : ℚ) / b⌉` (proved in `ceilDiv_eq_ceil` below). -/
def ceilDiv (a b : Int) : Int := -((-a).ediv b)

/-- Embedding of `Timer.prototype.getRemainingTime`. -/
def getRemainingTime (now : Int) (s : Sys) : Int :=
  let t := getElapsedTime now s
  if 0 < s.t._delay then ceilDiv (t + 1) s.t._delay * s.t._delay - t else 0

/-- Embedding of `Timer.prototype.stop`, called at wall-clock `now`.  Note: it cancels the
scheduled work but does not write to `this._interval`. -/
def stop (now : Int) (s : Sys) : Sys :=
  { s with
    pending := clearHandle s.t._interval s.pending
    t := { s.t with
           _count := 0
           _pausedTime := 0
           _currentTime := now
           _lastTime := now
           _state := .stop } }

/-- Embedding of `Timer.prototype.pause`, called at wall-clock `now`.  Note: it cancels the
scheduled work but does not write to `this._interval`. -/
def pause (now : Int) (s : Sys) : Sys :=
  { s with
    pending := clearHandle s.t._interval s.pending
    t := { s.t with
           _currentTime := getCurrentTime now s
           _state := .pause } }

/-- Embedding of `Timer.prototype.play`, called at wall-clock `now`.  The body of the
`setTimeout`/`setInterval` closures is executed by `fire` when the scheduled
tick is delivered. -/
def play (now : Int) (s : Sys) : Sys :=
  if s.t._maxCount.isPos then
    let s1 := pause now s
    let s2 := { s1 with
                t := { s1.t with _interval := some s1.nextId }
                pending := some (s1.nextId, .timeout)
                nextId := s1.nextId + 1 }
    { s2 with
      t := { s2.t with
             _pausedTime := now - s2.t._currentTime
             _state := .play } }
  else stop now s

/-- Embedding of `Timer.prototype.start`: sets `_maxCount` (`undefined` argument means
`POSITIVE_INFINITY`), then `stop()`, then `play()`. -/
def start (n : Option Int) (now : Int) (s : Sys) : Sys :=
  play now (stop now { s with t := { s.t with
    _maxCount := match n with | none => .inf | some k => .fin k } })

/-- Embedding of `Timer.prototype.setDelay`. -/
def setDelay (d : Int) (now : Int) (s : Sys) : Sys :=
  let s1 := { s with t := { s.t with _delay := d } }
  if isRunning s1 then play now s1 else s1

/-- Embedding of `Timer.prototype.toggle`. -/
def toggle (now : Int) (s : Sys) : Sys :=
  if isRunning s then pause now s else play now s

/-- Embedding of `Timer.prototype.once`: `this.start(1)`. -/
def once (now : Int) (s : Sys) : Sys := start (some 1) now s

/-- Delivery of a scheduled tick at wall-clock `now`: runs the `setTimeout`
handler (for a `timeout` entry, consuming it) or the `setInterval` handler
(for an `interval` entry); a no-op when nothing is scheduled. -/
def fire (now : Int) (s : Sys) : Sys :=
  match s.pending with
  | none => s
  | some (_, .timeout) =>
    -- setTimeout handler from `play`
    let s0 := { s with pending := none }
    let s1 := { s0 with t := { s0.t with
                 _lastTime := getCurrentTime now s0
                 _count := s0.t._count + 1 } }
    let s2 := { s1 with fired := s1.fired + 1, lastCb := some s1.t._count }
    if isRunning s2 then
      let s3 := { s2 with t := { s2.t with _maxCount := s2.t._maxCount.dec } }
      if s3.t._maxCount.isPos then
        { s3 with
          t := { s3.t with _interval := some s3.nextId }
          pending := some (s3.nextId, .interval)
          nextId := s3.nextId + 1 }
      else stop now s3
    else s2
  | some (_, .interval) =>
    -- setInterval handler installed by the setTimeout handler
    let s1 := { s with t := { s.t with
                 _lastTime := getCurrentTime now s
                 _count := s.t._count + 1 } }
    let s2 := { s1 with fired := s1.fired + 1, lastCb := some s1.t._count }
    let s3 := { s2 with t := { s2.t with _maxCount := s2.t._maxCount.dec } }
    if s3.t._maxCount.isPos then s3 else stop now s3

/-- The events that can act on a timer: the public operations and the delivery
of a scheduled tick. -/
inductive Event where
  | start (n : Option Int)
  | stop
  | play
  | pause
  | toggle
  | setDelay (d : Int)
  | once
  | fire
deriving DecidableEq, Repr

/-- Interpretation of an event at wall-clock `now`. -/
def step (e : Event) (now : Int) (s : Sys) : Sys :=
  match e with
  | .start n => start n now s
  | .stop => stop now s
  | .play => play now s
  | .pause => pause now s
  | .toggle => toggle now s
  | .setDelay d => setDelay d now s
  | .once => once now s
  | .fire => fire now s

/-- States reachable from `s0` by events satisfying `P`, each delivered at an
arbitrary wall-clock time. -/
inductive ReachableW (P : Event → Prop) (s0 : Sys) : Sys → Prop where
  | refl : ReachableW P s0 s0
  | next {s : Sys} (e : Event) (now : Int) :
      ReachableW P s0 s → P e → ReachableW P s0 (step e now s)

/-- States reachable by arbitrary event sequences. -/
def Reachable (s0 s : Sys) : Prop := ReachableW (fun _ => True) s0 s

/-- Events that are not a `start` with a negative argument. -/
def NonnegStart : Event → Prop
  | .start (some n) => 0 ≤ n
  | _ => True

instance : DecidablePred NonnegStart := fun e => by
  cases e with
  | start n => cases n <;> simp [NonnegStart] <;> infer_instance
  | _ => simp [NonnegStart]; infer_instance

/-- Runs `k` consecutive tick deliveries, the `i`-th at wall-clock `τ i`. -/
def fireN (τ : Nat → Int) : Nat → Sys → Sys
  | 0, s => s
  | k + 1, s => fireN (fun i => τ (i + 1)) k (fire (τ 0) s)

/-- Invariant of every reachable system state: an outstanding scheduled
callback exists exactly in the Running state, the `_interval` field then holds
its handle id, and the Running state implies a positive remaining fire
count. -/
def SysInv (s : Sys) : Prop :=
  ((s.pending ≠ none) ↔ s.t._state = .play) ∧
  (∀ id k, s.pending = some (id, k) → s.t._interval = some id) ∧
  (s.t._state = .play → s.t._maxCount.isPos = true)

/-! ## Arithmetic facts about `ceilDiv` -/

lemma ceilDiv_bounds (a b : Int) (hb : 0 < b) :
    a ≤ ceilDiv a b * b ∧ ceilDiv a b * b < a + b := by
  have h1 : b * ((-a).ediv b) + (-a).emod b = -a := Int.ediv_add_emod (-a) b
  have h2 : 0 ≤ (-a).emod b := Int.emod_nonneg (-a) hb.ne'
  have h3 : (-a).emod b < b := Int.emod_lt_of_pos (-a) hb
  unfold ceilDiv
  constructor <;> nlinarith [h1, h2, h3]

/-- For a positive divisor, `ceilDiv` computes the mathematical ceiling of the
real (rational) quotient, i.e. what JavaScript's `Math.ceil(a / b)` returns on
integer inputs. -/
lemma ceilDiv_eq_ceil (a b : Int) (hb : 0 < b) :
    ceilDiv a b = ⌈(a : ℚ) / (b : ℚ)⌉ := by
  have hbq : (0 : ℚ) < (b : ℚ) := by exact_mod_cast hb
  obtain ⟨h1, h2⟩ := ceilDiv_bounds a b hb
  symm
  rw [Int.ceil_eq_iff]
  constructor
  · rw [lt_div_iff₀ hbq]
    have h4 : (ceilDiv a b - 1) * b < a := by nlinarith
    exact_mod_cast h4
  · rw [div_le_iff₀ hbq]
    exact_mod_cast h1

/-! ## Characterizations of the operations -/

lemma clearHandle_noPending (h : Option Nat) : clearHandle h none = none := by
  cases h <;> rfl

lemma clearHandle_hit (s : Sys)
    (hB : ∀ id k, s.pending = some (id, k) → s.t._interval = some id) :
    clearHandle s.t._interval s.pending = none := by
  cases hp : s.pending with
  | none => exact clearHandle_noPending _
  | some x =>
    obtain ⟨id, k⟩ := x
    rw [hB id k hp]
    simp [clearHandle]

lemma play_of_pos (now : Int) (s : Sys) (hpos : s.t._maxCount.isPos = true) :
    play now s =
      { t := { s.t with
               _currentTime := getCurrentTime now s
               _pausedTime := now - getCurrentTime now s
               _interval := some s.nextId
               _state := .play }
        pending := some (s.nextId, .timeout)
        nextId := s.nextId + 1
        fired := s.fired
        lastCb := s.lastCb } := by
  simp [play, pause, hpos]

lemma play_of_nonpos (now : Int) (s : Sys) (hpos : s.t._maxCount.isPos = false) :
    play now s = stop now s := by
  simp [play, hpos]

lemma fire_noPending (now : Int) (s : Sys) (hp : s.pending = none) :
    fire now s = s := by
  unfold fire
  rw [hp]

lemma fire_timeout_eq (now : Int) (s : Sys) (id : Nat)
    (hp : s.pending = some (id, .timeout)) (hs : s.t._state = .play) :
    fire now s =
      if (s.t._maxCount.dec).isPos then
        { t := { s.t with
                 _lastTime := now - s.t._pausedTime
                 _count := s.t._count + 1
                 _maxCount := s.t._maxCount.dec
                 _interval := some s.nextId }
          pending := some (s.nextId, .interval)
          nextId := s.nextId + 1
          fired := s.fired + 1
          lastCb := some (s.t._count + 1) }
      else
        { t := { s.t with
                 _lastTime := now
                 _count := 0
                 _maxCount := s.t._maxCount.dec
                 _pausedTime := 0
                 _currentTime := now
                 _state := .stop }
          pending := none
          nextId := s.nextId
          fired := s.fired + 1
          lastCb := some (s.t._count + 1) } := by
  unfold fire
  rw [hp]
  simp [isRunning, getState, getCurrentTime, hs, stop, clearHandle_noPending]

lemma fire_interval_eq (now : Int) (s : Sys) (id : Nat)
    (hp : s.pending = some (id, .interval)) (hs : s.t._state = .play)
    (hI : s.t._interval = some id) :
    fire now s =
      if (s.t._maxCount.dec).isPos then
        { t := { s.t with
                 _lastTime := now - s.t._pausedTime
                 _count := s.t._count + 1
                 _maxCount := s.t._maxCount.dec }
          pending := s.pending
          nextId := s.nextId
          fired := s.fired + 1
          lastCb := some (s.t._count + 1) }
      else
        { t := { s.t with
                 _lastTime := now
                 _count := 0
                 _maxCount := s.t._maxCount.dec
                 _pausedTime := 0
                 _currentTime := now
                 _state := .stop }
          pending := none
          nextId := s.nextId
          fired := s.fired + 1
          lastCb := some (s.t._count + 1) } := by
  unfold fire
  rw [hp]
  simp [isRunning, getState, getCurrentTime, hs, stop, hp, hI, clearHandle]

lemma start_of_pos (s : Sys) (n : Int) (hn : 0 < n) (t0 : Int) :
    start (some n) t0 s =
      { t := { s.t with
               _maxCount := .fin n
               _count := 0
               _pausedTime := 0
               _currentTime := t0
               _lastTime := t0
               _interval := some s.nextId
               _state := .play }
        pending := some (s.nextId, .timeout)
        nextId := s.nextId + 1
        fired := s.fired
        lastCb := s.lastCb } := by
  unfold start
  rw [play_of_pos _ _ (by simp [stop, JNum.isPos, hn])]
  simp [stop, getCurrentTime, isRunning, getState]

/-! ## The inductive system invariant -/

lemma sysInv_of_notPlay (s : Sys) (h1 : s.pending = none)
    (h2 : s.t._state ≠ .play) : SysInv s := by
  refine ⟨⟨fun h => absurd h1 h, fun h => absurd h h2⟩, ?_, fun h => absurd h h2⟩
  intro id k hk
  rw [h1] at hk
  exact absurd hk (by simp)

lemma stop_sysInv (now : Int) (s : Sys)
    (hB : ∀ id k, s.pending = some (id, k) → s.t._interval = some id) :
    SysInv (stop now s) := by
  refine sysInv_of_notPlay _ ?_ (by simp [stop])
  show clearHandle s.t._interval s.pending = none
  exact clearHandle_hit s hB

lemma pause_sysInv (now : Int) (s : Sys)
    (hB : ∀ id k, s.pending = some (id, k) → s.t._interval = some id) :
    SysInv (pause now s) := by
  refine sysInv_of_notPlay _ ?_ (by simp [pause])
  show clearHandle s.t._interval s.pending = none
  exact clearHandle_hit s hB

lemma play_sysInv (now : Int) (s : Sys) (h : SysInv s) : SysInv (play now s) := by
  obtain ⟨hA, hB, hD⟩ := h
  cases hpos : s.t._maxCount.isPos with
  | false => rw [play_of_nonpos now s hpos]; exact stop_sysInv now s hB
  | true =>
    rw [play_of_pos now s hpos]
    exact ⟨by simp, by simp, fun _ => hpos⟩

lemma start_sysInv (n : Option Int) (now : Int) (s : Sys) (h : SysInv s) :
    SysInv (start n now s) := by
  obtain ⟨hA, hB, hD⟩ := h
  unfold start
  apply play_sysInv
  exact stop_sysInv now _ hB

lemma setDelay_sysInv (d : Int) (now : Int) (s : Sys) (h : SysInv s) :
    SysInv (setDelay d now s) := by
  obtain ⟨hA, hB, hD⟩ := h
  simp only [setDelay]
  split
  · exact play_sysInv now _ ⟨hA, hB, hD⟩
  · exact ⟨hA, hB, hD⟩

lemma toggle_sysInv (now : Int) (s : Sys) (h : SysInv s) :
    SysInv (toggle now s) := by
  unfold toggle
  split
  · exact pause_sysInv now s h.2.1
  · exact play_sysInv now s h

lemma fire_sysInv (now : Int) (s : Sys) (h : SysInv s) : SysInv (fire now s) := by
  obtain ⟨hA, hB, hD⟩ := h
  cases hp : s.pending with
  | none => rw [fire_noPending now s hp]; exact ⟨hA, hB, hD⟩
  | some x =>
    obtain ⟨id, k⟩ := x
    have hplay : s.t._state = .play := hA.mp (by rw [hp]; simp)
    cases k with
    | timeout =>
      rw [fire_timeout_eq now s id hp hplay]
      cases hdec : (s.t._maxCount.dec).isPos with
      | true =>
        rw [if_pos rfl]
        exact ⟨by simp [hplay], by simp, fun _ => hdec⟩
      | false =>
        rw [if_neg (by simp)]
        exact sysInv_of_notPlay _ rfl (by simp)
    | interval =>
      rw [fire_interval_eq now s id hp hplay (hB id .interval hp)]
      cases hdec : (s.t._maxCount.dec).isPos with
      | true =>
        rw [if_pos rfl]
        refine ⟨⟨fun _ => hplay, fun _ => by rw [hp]; simp⟩, ?_, fun _ => hdec⟩
        intro id2 k2 hk2
        simpa using hB id2 k2 hk2
      | false =>
        rw [if_neg (by simp)]
        exact sysInv_of_notPlay _ rfl (by simp)

lemma step_sysInv (e : Event) (now : Int) (s : Sys) (h : SysInv s) :
    SysInv (step e now s) := by
  cases e with
  | start n => exact start_sysInv n now s h
  | stop => exact stop_sysInv now s h.2.1
  | play => exact play_sysInv now s h
  | pause => exact pause_sysInv now s h.2.1
  | toggle => exact toggle_sysInv now s h
  | setDelay d => exact setDelay_sysInv d now s h
  | once => exact start_sysInv (some 1) now s h
  | fire => exact fire_sysInv now s h

lemma mkSys_sysInv (d : Int) (cb : Nat) (now : Int) : SysInv (mkSys d cb now) :=
  sysInv_of_notPlay _ rfl (by simp [mkSys])

lemma reachableW_elim {P : Event → Prop} {s0 s : Sys} (I : Sys → Prop)
    (h0 : I s0)
    (hstep : ∀ e now s, P e → I s → I (step e now s))
    (hr : ReachableW P s0 s) : I s := by
  induction hr with
  | refl => exact h0
  | next e now hr hP ih => exact hstep e now _ hP ih

lemma reachable_sysInv {d t0 : Int} {cb : Nat} {s : Sys}
    (hr : Reachable (mkSys d cb t0) s) : SysInv s :=
  reachableW_elim SysInv (mkSys_sysInv d cb t0)
    (fun e now s _ h => step_sysInv e now s h) hr

/-! ## Nonnegativity of the remaining fire count -/

lemma JNum.dec_nonneg (x : JNum) (h : x.isPos = true) : x.dec.nonneg := by
  cases x with
  | inf => trivial
  | fin n =>
    simp [JNum.isPos] at h
    simp [JNum.dec, JNum.nonneg]
    omega

lemma stop_maxCount (now : Int) (s : Sys) :
    (stop now s).t._maxCount = s.t._maxCount := rfl

lemma pause_maxCount (now : Int) (s : Sys) :
    (pause now s).t._maxCount = s.t._maxCount := rfl

lemma play_maxCount (now : Int) (s : Sys) :
    (play now s).t._maxCount = s.t._maxCount := by
  unfold play
  split <;> rfl

lemma fire_maxCount (now : Int) (s : Sys) :
    (fire now s).t._maxCount = s.t._maxCount ∨
      (s.pending ≠ none ∧ (fire now s).t._maxCount = s.t._maxCount.dec) := by
  unfold fire
  cases hp : s.pending with
  | none => exact Or.inl rfl
  | some x =>
    obtain ⟨id, k⟩ := x
    cases k with
    | timeout =>
      dsimp only
      split
      · split
        · exact Or.inr ⟨by simp, rfl⟩
        · exact Or.inr ⟨by simp, rfl⟩
      · exact Or.inl rfl
    | interval =>
      dsimp only
      split
      · exact Or.inr ⟨by simp, rfl⟩
      · exact Or.inr ⟨by simp, rfl⟩

lemma step_nonneg (e : Event) (now : Int) (s : Sys) (hP : NonnegStart e)
    (hI : SysInv s) (hN : s.t._maxCount.nonneg) :
    (step e now s).t._maxCount.nonneg := by
  obtain ⟨hA, hB, hD⟩ := hI
  cases e with
  | start n =>
    show (play now (stop now _)).t._maxCount.nonneg
    rw [play_maxCount, stop_maxCount]
    cases n with
    | none => trivial
    | some k => exact hP
  | stop => rw [show (step .stop now s) = stop now s from rfl, stop_maxCount]; exact hN
  | play => rw [show (step .play now s) = play now s from rfl, play_maxCount]; exact hN
  | pause => exact hN
  | toggle =>
    show (toggle now s).t._maxCount.nonneg
    unfold toggle
    split
    · exact hN
    · rw [play_maxCount]; exact hN
  | setDelay d =>
    show (setDelay d now s).t._maxCount.nonneg
    simp only [setDelay]
    split
    · rw [play_maxCount]; exact hN
    · exact hN
  | once =>
    show (play now (stop now _)).t._maxCount.nonneg
    rw [play_maxCount, stop_maxCount]
    show JNum.nonneg (.fin 1)
    simp [JNum.nonneg]
  | fire =>
    show (fire now s).t._maxCount.nonneg
    rcases fire_maxCount now s with h | ⟨hp, h⟩
    · rw [h]; exact hN
    · rw [h]
      exact JNum.dec_nonneg _ (hD (hA.mp hp))

lemma reachable_nonneg {d t0 : Int} {cb : Nat} {s : Sys}
    (hr : ReachableW NonnegStart (mkSys d cb t0) s) :
    SysInv s ∧ s.t._maxCount.nonneg := by
  refine reachableW_elim (fun s => SysInv s ∧ s.t._maxCount.nonneg)
    ⟨mkSys_sysInv d cb t0, trivial⟩ ?_ hr
  intro e now s hP h
  exact ⟨step_sysInv e now s h.1, step_nonneg e now s hP h.1 h.2⟩

/-! ## Runs of scheduled firings -/

lemma fireN_interval (k : Nat) :
    ∀ (s : Sys) (τ : Nat → Int) (id : Nat),
      s.pending = some (id, .interval) → s.t._state = .play →
      s.t._interval = some id → s.t._maxCount = .fin ((k : Int) + 1) →
      (fireN τ (k + 1) s).t._state = .stop ∧
      (fireN τ (k + 1) s).fired = s.fired + (k + 1) ∧
      (fireN τ (k + 1) s).lastCb = some (s.t._count + (k : Int) + 1) ∧
      (fireN τ (k + 1) s).t._count = 0 ∧
      (fireN τ (k + 1) s).pending = none ∧
      (fireN τ (k + 1) s).t._maxCount = .fin 0 := by
  induction k with
  | zero =>
    intro s τ id hp hs hI hm
    have hd : s.t._maxCount.dec = .fin 0 := by rw [hm]; simp [JNum.dec]
    have hdp : (s.t._maxCount.dec).isPos = false := by rw [hd]; simp [JNum.isPos]
    simp only [fireN]
    rw [fire_interval_eq (τ 0) s id hp hs hI, hdp, if_neg (by simp)]
    refine ⟨rfl, by simp, by simp, rfl, rfl, by simpa using hd⟩
  | succ m ih =>
    intro s τ id hp hs hI hm
    have hd : s.t._maxCount.dec = .fin ((m : Int) + 1) := by
      rw [hm]; simp [JNum.dec]
    have hdp : (s.t._maxCount.dec).isPos = true := by
      rw [hd]; simp [JNum.isPos]
    simp only [fireN]
    rw [fire_interval_eq (τ 0) s id hp hs hI, hdp, if_pos rfl]
    obtain ⟨h1, h2, h3, h4, h5, h6⟩ :=
      ih { t := { s.t with
                  _lastTime := τ 0 - s.t._pausedTime
                  _count := s.t._count + 1
                  _maxCount := s.t._maxCount.dec }
           pending := s.pending
           nextId := s.nextId
           fired := s.fired + 1
           lastCb := some (s.t._count + 1) }
        (fun i => τ (i + 1)) id (by simpa using hp) (by simpa using hs)
        (by simpa using hI) (by simpa using hd)
    refine ⟨h1, ?_, ?_, h4, h5, h6⟩
    · exact h2.trans (by show s.fired + 1 + (m + 1) = s.fired + (m + 1 + 1); omega)
    · exact h3.trans (by
        show some (s.t._count + 1 + (m : Int) + 1)
          = some (s.t._count + ((m + 1 : Nat) : Int) + 1)
        congr 1
        push_cast
        ring)

lemma fireN_from_timeout (n : Nat) (hn : 0 < n) (s : Sys) (id : Nat)
    (τ : Nat → Int)
    (hp : s.pending = some (id, .timeout)) (hs : s.t._state = .play)
    (hm : s.t._maxCount = .fin (n : Int)) :
    (fireN τ n s).t._state = .stop ∧
    (fireN τ n s).fired = s.fired + n ∧
    (fireN τ n s).lastCb = some (s.t._count + (n : Int)) ∧
    (fireN τ n s).t._count = 0 ∧
    (fireN τ n s).pending = none ∧
    (fireN τ n s).t._maxCount = .fin 0 := by
  obtain ⟨m, rfl⟩ : ∃ m, n = m + 1 := ⟨n - 1, by omega⟩
  simp only [fireN]
  rw [fire_timeout_eq (τ 0) s id hp hs]
  cases m with
  | zero =>
    have hd : s.t._maxCount.dec = .fin 0 := by rw [hm]; simp [JNum.dec]
    have hdp : (s.t._maxCount.dec).isPos = false := by rw [hd]; simp [JNum.isPos]
    rw [hdp, if_neg (by simp)]
    simp [fireN, hd]
  | succ m2 =>
    have hd : s.t._maxCount.dec = .fin ((m2 : Int) + 1) := by
      rw [hm]; simp [JNum.dec]
    have hdp : (s.t._maxCount.dec).isPos = true := by
      rw [hd]; simp [JNum.isPos]
    rw [hdp, if_pos rfl]
    obtain ⟨h1, h2, h3, h4, h5, h6⟩ :=
      fireN_interval m2
        { t := { s.t with
                 _lastTime := τ 0 - s.t._pausedTime
                 _count := s.t._count + 1
                 _maxCount := s.t._maxCount.dec
                 _interval := some s.nextId }
          pending := some (s.nextId, .interval)
          nextId := s.nextId + 1
          fired := s.fired + 1
          lastCb := some (s.t._count + 1) }
        (fun i => τ (i + 1)) s.nextId rfl (by simpa using hs) rfl
        (by simpa using hd)
    refine ⟨h1, ?_, ?_, h4, h5, h6⟩
    · exact h2.trans (by
        show s.fired + 1 + (m2 + 1) = s.fired + (m2 + 1 + 1)
        omega)
    · exact h3.trans (by
        show some (s.t._count + 1 + (m2 : Int) + 1)
          = some (s.t._count + ((m2 + 1 + 1 : Nat) : Int))
        congr 1
        push_cast
        ring)

lemma start_run (s : Sys) (n : Nat) (hn : 0 < n) (t0 : Int) (τ : Nat → Int) :
    (fireN τ n (start (some (n : Int)) t0 s)).t._state = .stop ∧
    (fireN τ n (start (some (n : Int)) t0 s)).fired = s.fired + n ∧
    (fireN τ n (start (some (n : Int)) t0 s)).lastCb = some (n : Int) ∧
    (fireN τ n (start (some (n : Int)) t0 s)).t._count = 0 ∧
    (fireN τ n (start (some (n : Int)) t0 s)).pending = none ∧
    (fireN τ n (start (some (n : Int)) t0 s)).t._maxCount = .fin 0 := by
  rw [start_of_pos s (n : Int) (by exact_mod_cast hn) t0]
  obtain ⟨h1, h2, h3, h4, h5, h6⟩ :=
    fireN_from_timeout n hn
      { t := { s.t with
               _maxCount := .fin (n : Int)
               _count := 0
               _pausedTime := 0
               _currentTime := t0
               _lastTime := t0
               _interval := some s.nextId
               _state := .play }
        pending := some (s.nextId, .timeout)
        nextId := s.nextId + 1
        fired := s.fired
        lastCb := s.lastCb }
      s.nextId τ rfl rfl rfl
  refine ⟨h1, by simpa using h2, by simpa using h3, h4, h5, h6⟩

lemma fireN_inf_interval (k : Nat) :
    ∀ (s : Sys) (τ : Nat → Int) (id : Nat),
      s.pending = some (id, .interval) → s.t._state = .play →
      s.t._interval = some id → s.t._maxCount = .inf →
      (fireN τ k s).t._state = .play ∧
      (fireN τ k s).fired = s.fired + k ∧
      (fireN τ k s).t._maxCount = .inf ∧
      (fireN τ k s).pending = some (id, .interval) ∧
      (fireN τ k s).t._interval = some id := by
  induction k with
  | zero =>
    intro s τ id hp hs hI hm
    exact ⟨hs, by simp [fireN], hm, hp, hI⟩
  | succ m ih =>
    intro s τ id hp hs hI hm
    have hd : s.t._maxCount.dec = .inf := by rw [hm]; rfl
    have hdp : (s.t._maxCount.dec).isPos = true := by rw [hd]; rfl
    simp only [fireN]
    rw [fire_interval_eq (τ 0) s id hp hs hI, hdp, if_pos rfl]
    obtain ⟨h1, h2, h3, h4, h5⟩ :=
      ih { t := { s.t with
                  _lastTime := τ 0 - s.t._pausedTime
                  _count := s.t._count + 1
                  _maxCount := s.t._maxCount.dec }
           pending := s.pending
           nextId := s.nextId
           fired := s.fired + 1
           lastCb := some (s.t._count + 1) }
        (fun i => τ (i + 1)) id (by simpa using hp) (by simpa using hs)
        (by simpa using hI) (by simpa using hd)
    refine ⟨h1, ?_, h3, h4, h5⟩
    exact h2.trans (by show s.fired + 1 + m = s.fired + (m + 1); omega)

lemma fireN_from_timeout_inf (k : Nat) (s : Sys) (id : Nat) (τ : Nat → Int)
    (hp : s.pending = some (id, .timeout)) (hs : s.t._state = .play)
    (hm : s.t._maxCount = .inf) :
    (fireN τ k s).t._state = .play ∧
    (fireN τ k s).fired = s.fired + k ∧
    (fireN τ k s).t._maxCount = .inf := by
  cases k with
  | zero => exact ⟨hs, by simp [fireN], hm⟩
  | succ m =>
    have hd : s.t._maxCount.dec = .inf := by rw [hm]; rfl
    have hdp : (s.t._maxCount.dec).isPos = true := by rw [hd]; rfl
    simp only [fireN]
    rw [fire_timeout_eq (τ 0) s id hp hs, hdp, if_pos rfl]
    obtain ⟨h1, h2, h3, _, _⟩ :=
      fireN_inf_interval m
        { t := { s.t with
                 _lastTime := τ 0 - s.t._pausedTime
                 _count := s.t._count + 1
                 _maxCount := s.t._maxCount.dec
                 _interval := some s.nextId }
          pending := some (s.nextId, .interval)
          nextId := s.nextId + 1
          fired := s.fired + 1
          lastCb := some (s.t._count + 1) }
        (fun i => τ (i + 1)) s.nextId rfl (by simpa using hs) rfl
        (by simpa using hd)
    refine ⟨h1, ?_, h3⟩
    exact h2.trans (by show s.fired + 1 + m = s.fired + (m + 1); omega)

/-! ## A helper: a firing that exhausts the count stops the timer -/

lemma fire_pausedTime (now : Int) (s : Sys) :
    (fire now s).t._pausedTime = s.t._pausedTime ∨
      (fire now s).t._pausedTime = 0 := by
  unfold fire
  cases hp : s.pending with
  | none => exact Or.inl rfl
  | some x =>
    obtain ⟨id, k⟩ := x
    cases k with
    | timeout =>
      dsimp only
      split
      · split
        · exact Or.inl rfl
        · exact Or.inr rfl
      · exact Or.inl rfl
    | interval =>
      dsimp only
      split
      · exact Or.inl rfl
      · exact Or.inr rfl

lemma play_stop_pausedTime (now : Int) (s : Sys) :
    (play now (stop now s)).t._pausedTime = 0 := by
  cases hpos : ((stop now s).t._maxCount).isPos with
  | true =>
    rw [play_of_pos now (stop now s) hpos]
    show now - getCurrentTime now (stop now s) = 0
    simp [getCurrentTime, isRunning, getState, stop]
  | false =>
    rw [play_of_nonpos now (stop now s) hpos]
    rfl

lemma start_pausedTime (n : Option Int) (now : Int) (s : Sys) :
    (start n now s).t._pausedTime = 0 := by
  unfold start
  exact play_stop_pausedTime now _

lemma fire_stops_when_nonpos (now : Int) (s : Sys) (hI : SysInv s)
    (hne : (fire now s).t._maxCount ≠ s.t._maxCount)
    (hnp : ((fire now s).t._maxCount).isPos = false) :
    (fire now s).t._state = .stop := by
  obtain ⟨hA, hB, hD⟩ := hI
  cases hp : s.pending with
  | none => rw [fire_noPending now s hp] at hne; exact absurd rfl hne
  | some x =>
    obtain ⟨id, k⟩ := x
    have hplay : s.t._state = .play := hA.mp (by rw [hp]; simp)
    cases k with
    | timeout =>
      rw [fire_timeout_eq now s id hp hplay] at hnp ⊢
      cases hdec : (s.t._maxCount.dec).isPos with
      | true =>
        rw [hdec, if_pos rfl] at hnp
        simp [hdec] at hnp
      | false =>
        rw [if_neg (by simp)]
    | interval =>
      rw [fire_interval_eq now s id hp hplay (hB id .interval hp)] at hnp ⊢
      cases hdec : (s.t._maxCount.dec).isPos with
      | true =>
        rw [hdec, if_pos rfl] at hnp
        simp [hdec] at hnp
      | false =>
        rw [if_neg (by simp)]

/-! ## The claims -/

/-- C1 (corrected).  The original claim is refuted by `C1_counterexample`:
once the last firing's handler has completed, the autonomous `stop()` inside
it has already reset `_count` to 0, so `getCount()` is 0, not `n`.  Amended
claim proved here: for every `n > 0`, after `start(n)` the timer fires the
callback exactly `n` times (the ghost `fired` counter rises by exactly `n`,
nothing remains scheduled, and further tick deliveries are no-ops) and then
autonomously transitions to Stopped; the callback of the last firing observes
`getCount() = n` (ghost `lastCb`), but once that firing's handler completes
`getCount()` is 0. -/
theorem C1_count_exhaustion (d t0 tc : Int) (cb : Nat) (s : Sys)
    (hr : Reachable (mkSys d cb tc) s) (n : Nat) (hn : 0 < n) (τ : Nat → Int) :
    (fireN τ n (start (some (n : Int)) t0 s)).fired = s.fired + n ∧
    getState (fireN τ n (start (some (n : Int)) t0 s)) = TState.stop ∧
    (fireN τ n (start (some (n : Int)) t0 s)).lastCb = some (n : Int) ∧
    getCount (fireN τ n (start (some (n : Int)) t0 s)) = 0 ∧
    (fireN τ n (start (some (n : Int)) t0 s)).pending = none ∧
    (∀ now2 : Int, fire now2 (fireN τ n (start (some (n : Int)) t0 s)) =
        fireN τ n (start (some (n : Int)) t0 s)) := by
  obtain ⟨h1, h2, h3, h4, h5, h6⟩ := start_run s n hn t0 τ
  exact ⟨h2, h1, h3, h4, h5, fun now2 => fire_noPending now2 _ h5⟩

/-- Witness for `C1_count_exhaustion` at `n = 3`, delay 1000, ticks at
1000, 2000, 3000. -/
theorem C1_count_exhaustion_witness :
    getState (fireN (fun i => 1000 * ((i : Int) + 1)) 3
      (start (some ((3 : Nat) : Int)) 0 (mkSys 1000 0 0))) = TState.stop ∧
    (fireN (fun i => 1000 * ((i : Int) + 1)) 3
      (start (some ((3 : Nat) : Int)) 0 (mkSys 1000 0 0))).lastCb
        = some ((3 : Nat) : Int) :=
  ⟨(C1_count_exhaustion 1000 0 0 0 (mkSys 1000 0 0) ReachableW.refl 3 (by decide)
      (fun i => 1000 * ((i : Int) + 1))).2.1,
   (C1_count_exhaustion 1000 0 0 0 (mkSys 1000 0 0) ReachableW.refl 3 (by decide)
      (fun i => 1000 * ((i : Int) + 1))).2.2.1⟩

/-- Counterexample to C1 as stated: with `start(2)` and both firings
delivered, the second (last) firing's handler has completed (the timer is
already Stopped and the ghost counter shows both firings), yet `getCount()`
is 0 — not `n = 2` — because the handler's autonomous `stop()` reset it. -/
theorem C1_counterexample :
    (fireN (fun i => 1000 * ((i : Int) + 1)) 2
      (step (Event.start (some 2)) 0 (mkSys 1000 0 0))).fired = 2 ∧
    getState (fireN (fun i => 1000 * ((i : Int) + 1)) 2
      (step (Event.start (some 2)) 0 (mkSys 1000 0 0))) = TState.stop ∧
    getCount (fireN (fun i => 1000 * ((i : Int) + 1)) 2
      (step (Event.start (some 2)) 0 (mkSys 1000 0 0))) = 0 := by
  decide

/-- C2 (corrected).  The original claim is refuted by `C2_counterexample`:
`start` stores its argument into `_maxCount` unchecked, so `start(-1)` makes
the remaining fire count negative.  Amended claim proved here: along every
sequence of public operations in which each `start` argument is omitted or
nonnegative, `_maxCount` is never negative; moreover whenever a tick delivery
changes `_maxCount` and leaves it non-positive (the decrement of a firing
reaching 0), the resulting state is Stopped. -/
theorem C2_nonneg_count (d t0 : Int) (cb : Nat) (s : Sys)
    (hr : ReachableW NonnegStart (mkSys d cb t0) s) :
    (s.t._maxCount).nonneg ∧
    (∀ now : Int, (fire now s).t._maxCount ≠ s.t._maxCount →
      ((fire now s).t._maxCount).isPos = false →
      getState (fire now s) = TState.stop) := by
  obtain ⟨hI, hN⟩ := reachable_nonneg hr
  exact ⟨hN, fun now hne hnp => fire_stops_when_nonpos now s hI hne hnp⟩

/-- Witness for `C2_nonneg_count`: after `start(1)` the count is nonnegative,
and the tick that decrements it to 0 leaves the timer Stopped. -/
theorem C2_nonneg_count_witness :
    ((step (Event.start (some 1)) 0 (mkSys 1000 0 0)).t._maxCount).nonneg ∧
    getState (fire 5 (step (Event.start (some 1)) 0 (mkSys 1000 0 0)))
      = TState.stop := by
  have h := C2_nonneg_count 1000 0 0 (step (Event.start (some 1)) 0 (mkSys 1000 0 0))
    (ReachableW.next (Event.start (some 1)) 0 ReachableW.refl (by decide))
  exact ⟨h.1, h.2 5 (by decide) (by decide)⟩

/-- Counterexample to C2 as stated: the public operation `start(-1)` (a
numeric argument) drives `_maxCount` to `-1`, a negative value, in a
reachable state. -/
theorem C2_counterexample :
    (step (Event.start (some (-1))) 1 (mkSys 1000 0 0)).t._maxCount
      = JNum.fin (-1) ∧
    ¬ ((step (Event.start (some (-1))) 1 (mkSys 1000 0 0)).t._maxCount).nonneg := by
  decide

/-- C3 (corrected).  The original claim is refuted by `C3_counterexample`:
`play()` called in the Stopped state (a Stopped→Running transition, which is
neither Running→Paused nor Paused→Running) overwrites `_pausedTime` with
`now - _currentTime`, which is nonzero as soon as wall-clock time has
advanced since `stop()`.  Amended claim proved here, including the
exclusivity: `pause()` never changes `_pausedTime`; `stop()` resets it to 0;
`play()` entering Running (from any state with a positive remaining count)
sets it to `now - getCurrentTime()`, which from Stopped is
`now - _currentTime`; and — the "only" part — every public operation and
every tick delivery either leaves `_pausedTime` unchanged, resets it to 0
(the `stop()` reset, performed directly or inside
`start`/`play`/`once`/`toggle`/`setDelay`/a final firing), or enters the
Running state performing exactly `play()`'s write `now - getCurrentTime()`. -/
theorem C3_pausedTime (s : Sys) (now : Int) :
    (pause now s).t._pausedTime = s.t._pausedTime ∧
    (stop now s).t._pausedTime = 0 ∧
    ((s.t._maxCount).isPos = true →
      (play now s).t._pausedTime = now - getCurrentTime now s) ∧
    (getState s = TState.stop → (s.t._maxCount).isPos = true →
      (play now s).t._pausedTime = now - s.t._currentTime) ∧
    (∀ e : Event,
      (step e now s).t._pausedTime = s.t._pausedTime ∨
      (step e now s).t._pausedTime = 0 ∨
      (getState (step e now s) = TState.play ∧
        (step e now s).t._pausedTime = now - getCurrentTime now s)) := by
  refine ⟨rfl, rfl, ?_, ?_, ?_⟩
  · intro hpos
    rw [play_of_pos now s hpos]
  · intro hst hpos
    have hnr : isRunning s = false := by simp [isRunning, hst]
    rw [play_of_pos now s hpos]
    simp [getCurrentTime, hnr]
  · intro e
    cases e with
    | start n => exact Or.inr (Or.inl (start_pausedTime n now s))
    | stop => exact Or.inr (Or.inl rfl)
    | play =>
      dsimp only [step]
      cases hpos : (s.t._maxCount).isPos with
      | true =>
        refine Or.inr (Or.inr ⟨?_, ?_⟩) <;> rw [play_of_pos now s hpos] <;> rfl
      | false =>
        refine Or.inr (Or.inl ?_)
        rw [play_of_nonpos now s hpos]
        rfl
    | pause => exact Or.inl rfl
    | toggle =>
      dsimp only [step]
      unfold toggle
      split
      · exact Or.inl rfl
      · cases hpos : (s.t._maxCount).isPos with
        | true =>
          refine Or.inr (Or.inr ⟨?_, ?_⟩) <;> rw [play_of_pos now s hpos] <;> rfl
        | false =>
          refine Or.inr (Or.inl ?_)
          rw [play_of_nonpos now s hpos]
          rfl
    | setDelay d =>
      dsimp only [step]
      simp only [setDelay]
      by_cases h : isRunning { s with t := { s.t with _delay := d } } = true
      · rw [if_pos h]
        cases hpos : (s.t._maxCount).isPos with
        | true =>
          refine Or.inl ?_
          rw [play_of_pos now { s with t := { s.t with _delay := d } } hpos]
          show now - getCurrentTime now { s with t := { s.t with _delay := d } }
            = s.t._pausedTime
          simp [getCurrentTime, h]
        | false =>
          refine Or.inr (Or.inl ?_)
          rw [play_of_nonpos now { s with t := { s.t with _delay := d } } hpos]
          rfl
      · rw [if_neg h]
        exact Or.inl rfl
    | once => exact Or.inr (Or.inl (start_pausedTime (some 1) now s))
    | fire =>
      rcases fire_pausedTime now s with h | h
      · exact Or.inl h
      · exact Or.inr (Or.inl h)

/-- Witness for `C3_pausedTime` on a fresh timer. -/
theorem C3_pausedTime_witness :
    (pause 7 (mkSys 1000 0 0)).t._pausedTime = (mkSys 1000 0 0).t._pausedTime ∧
    (play 100 (mkSys 1000 0 0)).t._pausedTime
      = 100 - (mkSys 1000 0 0).t._currentTime :=
  ⟨(C3_pausedTime (mkSys 1000 0 0) 7).1,
   (C3_pausedTime (mkSys 1000 0 0) 100).2.2.2.1 (by decide) (by decide)⟩

/-- Counterexample to C3 as stated: a fresh (reachable, Stopped) timer has
`_pausedTime = 0`; the single public operation `play()` at `now = 100` —
performed from the Stopped state, transitioning Stopped→Running — changes
`_pausedTime` to 100, which is neither one of the claimed transitions nor a
reset to 0. -/
theorem C3_counterexample :
    (mkSys 1000 0 0).t._pausedTime = 0 ∧
    getState (mkSys 1000 0 0) = TState.stop ∧
    (step Event.play 100 (mkSys 1000 0 0)).t._pausedTime = 100 ∧
    getState (step Event.play 100 (mkSys 1000 0 0)) = TState.play := by
  decide

/-- C4 (corrected).  The original claim is refuted by `C4_counterexample`:
`stop()` and `pause()` only call `clearTimeout`/`clearInterval` and never
write `null` into `this._interval`, so after the first `play()` the field
keeps a stale handle id forever.  Amended claim proved here: in every
reachable state an outstanding (uncanceled, unconsumed) scheduled callback
exists iff the state is Running, and while one exists `_interval` holds its
handle id. -/
theorem C4_activeHandle (d t0 : Int) (cb : Nat) (s : Sys)
    (hr : Reachable (mkSys d cb t0) s) :
    ((s.pending ≠ none) ↔ getState s = TState.play) ∧
    (∀ id k, s.pending = some (id, k) → s.t._interval = some id) := by
  obtain ⟨hA, hB, _⟩ := reachable_sysInv hr
  exact ⟨hA, hB⟩

/-- Witness for `C4_activeHandle`: right after `play()` the timer is Running
with an outstanding scheduled callback whose handle is in `_interval`. -/
theorem C4_activeHandle_witness :
    (step Event.play 5 (mkSys 1000 0 0)).pending ≠ none ∧
    (step Event.play 5 (mkSys 1000 0 0)).t._interval = some 0 := by
  have h := C4_activeHandle 1000 0 0 (step Event.play 5 (mkSys 1000 0 0))
    (ReachableW.next Event.play 5 ReachableW.refl trivial)
  exact ⟨h.1.mpr (by decide), h.2 0 SKind.timeout (by decide)⟩

/-- Counterexample to C4 as stated: after `play()` then `pause()` the timer
is Paused (not Running), yet the `_interval` field still holds the stale
handle `0` — it is not null.  (The claim asserts the field is null after
`pause()`.) -/
theorem C4_counterexample :
    getState (step Event.pause 7 (step Event.play 5 (mkSys 1000 0 0)))
      = TState.pause ∧
    (step Event.pause 7 (step Event.play 5 (mkSys 1000 0 0))).t._interval
      = some 0 := by
  decide

/-- C5 (confirmed).  For every timer state and wall-clock time,
`getElapsedTime()` is `getCurrentTime() - _lastTime`, and
`getRemainingTime()` returns `⌈(elapsed + 1) / delay⌉ * delay - elapsed`
(real ceiling of the rational quotient, as `Math.ceil` computes) when
`delay > 0`, and `0` when `delay ≤ 0`. -/
theorem C5_remainingTime (s : Sys) (now : Int) :
    getElapsedTime now s = getCurrentTime now s - s.t._lastTime ∧
    getRemainingTime now s =
      (if 0 < s.t._delay then
        ⌈((getElapsedTime now s + 1 : Int) : ℚ) / ((s.t._delay : Int) : ℚ)⌉
          * s.t._delay - getElapsedTime now s
       else 0) := by
  refine ⟨rfl, ?_⟩
  simp only [getRemainingTime]
  by_cases hd : 0 < s.t._delay
  · rw [if_pos hd, if_pos hd, ceilDiv_eq_ceil _ _ hd]
  · rw [if_neg hd, if_neg hd]

/-- C6 (corrected).  The original claim is refuted by `C6_counterexample`:
`toggle()` from a reachable Stopped (or Paused) state with a non-positive
remaining fire count calls `play()`, whose guard `_maxCount > 0` fails, so it
falls through to `stop()` and the timer stays Stopped.  Amended claim proved
here: `toggle()` from Running yields Paused; `toggle()` from a non-Running
state yields Running when the remaining fire count is positive, and Stopped
when it is not. -/
theorem C6_toggle (s : Sys) (now : Int) :
    (getState s = TState.play → getState (toggle now s) = TState.pause) ∧
    (getState s ≠ TState.play → (s.t._maxCount).isPos = true →
      getState (toggle now s) = TState.play) ∧
    (getState s ≠ TState.play → (s.t._maxCount).isPos = false →
      getState (toggle now s) = TState.stop) := by
  refine ⟨?_, ?_, ?_⟩
  · intro h
    unfold toggle
    rw [if_pos (by simp [isRunning, h])]
    rfl
  · intro h hpos
    unfold toggle
    rw [if_neg (by simp [isRunning, h]), play_of_pos now s hpos]
    rfl
  · intro h hpos
    unfold toggle
    rw [if_neg (by simp [isRunning, h]), play_of_nonpos now s hpos]
    rfl

/-- Witness for `C6_toggle`: the three branches at concrete reachable
states — Running (after `play`), fresh Stopped (infinite count), and Stopped
with exhausted count (after `start(0)`). -/
theorem C6_toggle_witness :
    getState (toggle 6 (step Event.play 5 (mkSys 1000 0 0))) = TState.pause ∧
    getState (toggle 6 (mkSys 1000 0 0)) = TState.play ∧
    getState (toggle 3 (step (Event.start (some 0)) 1 (mkSys 1000 0 0)))
      = TState.stop :=
  ⟨(C6_toggle (step Event.play 5 (mkSys 1000 0 0)) 6).1 (by decide),
   (C6_toggle (mkSys 1000 0 0) 6).2.1 (by decide) (by decide),
   (C6_toggle (step (Event.start (some 0)) 1 (mkSys 1000 0 0)) 3).2.2
     (by decide) (by decide)⟩

/-- Counterexample to C6 as stated: `start(0)` leaves a reachable Stopped
state; `toggle()` from it yields Stopped, not Running. -/
theorem C6_counterexample :
    getState (step (Event.start (some 0)) 1 (mkSys 1000 0 0)) = TState.stop ∧
    getState (step Event.toggle 3 (step (Event.start (some 0)) 1
      (mkSys 1000 0 0))) = TState.stop := by
  decide

/-- C7 (confirmed).  In the source `once()` is literally `this.start(1)`, so
from any state and any wall-clock time the two calls produce identical
resulting states; consequently (by the count-exhaustion run) `once()` leads
to exactly one firing, whose callback observes count 1, and then the Stopped
state with nothing scheduled. -/
theorem C7_once (s : Sys) (now : Int) :
    once now s = start (some 1) now s ∧
    (∀ τ : Nat → Int,
      (fireN τ 1 (once now s)).fired = s.fired + 1 ∧
      getState (fireN τ 1 (once now s)) = TState.stop ∧
      (fireN τ 1 (once now s)).lastCb = some 1 ∧
      (fireN τ 1 (once now s)).pending = none) := by
  refine ⟨rfl, ?_⟩
  intro τ
  obtain ⟨h1, h2, h3, h4, h5, h6⟩ := start_run s 1 (by omega) now τ
  exact ⟨h2, h1, by simpa using h3, h5⟩

/-- Witness for `C7_once` on a fresh timer: one tick delivery after `once()`
fires once and stops. -/
theorem C7_once_witness :
    getState (fireN (fun i => 1000 * ((i : Int) + 1)) 1
      (once 0 (mkSys 1000 0 0))) = TState.stop ∧
    (fireN (fun i => 1000 * ((i : Int) + 1)) 1
      (once 0 (mkSys 1000 0 0))).fired = (mkSys 1000 0 0).fired + 1 :=
  ⟨((C7_once (mkSys 1000 0 0) 0).2 (fun i => 1000 * ((i : Int) + 1))).2.1,
   ((C7_once (mkSys 1000 0 0) 0).2 (fun i => 1000 * ((i : Int) + 1))).1⟩

/-- C8 (confirmed).  The stop operation writes only `_count`, `_pausedTime`,
`_currentTime`, `_lastTime` and `_state`: it leaves `_maxCount`, `_delay`,
`_callback` and `_interval` unchanged.  Consequently, after a stop with an
exhausted (non-positive) remaining fire count, both `play()` and `toggle()`
leave the timer Stopped. -/
theorem C8_stop_frame (s : Sys) (now : Int) :
    (stop now s).t._maxCount = s.t._maxCount ∧
    (stop now s).t._delay = s.t._delay ∧
    (stop now s).t._callback = s.t._callback ∧
    (stop now s).t._interval = s.t._interval ∧
    ((s.t._maxCount).isPos = false → ∀ now2 : Int,
      getState (play now2 (stop now s)) = TState.stop ∧
      getState (toggle now2 (stop now s)) = TState.stop) := by
  refine ⟨rfl, rfl, rfl, rfl, ?_⟩
  intro hpos now2
  constructor
  · rw [play_of_nonpos now2 (stop now s) hpos]
    rfl
  · unfold toggle
    rw [if_neg (by simp [isRunning, getState, stop]),
      play_of_nonpos now2 (stop now s) hpos]
    rfl

/-- Witness for `C8_stop_frame` on a count-exhausted timer (after
`start(0)`). -/
theorem C8_stop_frame_witness :
    getState (play 3 (stop 2 (step (Event.start (some 0)) 1
      (mkSys 1000 0 0)))) = TState.stop ∧
    getState (toggle 3 (stop 2 (step (Event.start (some 0)) 1
      (mkSys 1000 0 0)))) = TState.stop :=
  (C8_stop_frame (step (Event.start (some 0)) 1 (mkSys 1000 0 0)) 2).2.2.2.2
    (by decide) 3

/-- C9 (confirmed).  A freshly constructed timer has
`_maxCount = Infinity`, `getCount() = 0`, `_pausedTime = 0` and is Stopped;
`play()` (or `toggle()`) on it, without any prior `start()`, enters Running,
and every number `k` of subsequent tick deliveries yields `k` firings with
the timer still Running and the count still infinite — the run is
unbounded. -/
theorem C9_fresh_unbounded (d t0 : Int) (cb : Nat) :
    (mkSys d cb t0).t._maxCount = JNum.inf ∧
    getCount (mkSys d cb t0) = 0 ∧
    (mkSys d cb t0).t._pausedTime = 0 ∧
    getState (mkSys d cb t0) = TState.stop ∧
    (∀ now : Int,
      getState (play now (mkSys d cb t0)) = TState.play ∧
      getState (toggle now (mkSys d cb t0)) = TState.play ∧
      (∀ (τ : Nat → Int) (k : Nat),
        (fireN τ k (play now (mkSys d cb t0))).fired = k ∧
        getState (fireN τ k (play now (mkSys d cb t0))) = TState.play ∧
        (fireN τ k (play now (mkSys d cb t0))).t._maxCount = JNum.inf)) := by
  refine ⟨rfl, rfl, rfl, rfl, fun now => ⟨?_, ?_, fun τ k => ?_⟩⟩
  · rw [play_of_pos now (mkSys d cb t0) rfl]
    rfl
  · unfold toggle
    rw [if_neg (by simp [isRunning, getState, mkSys]),
      play_of_pos now (mkSys d cb t0) rfl]
    rfl
  · obtain ⟨h1, h2, h3⟩ := fireN_from_timeout_inf k (play now (mkSys d cb t0)) 0 τ
      (by rw [play_of_pos now (mkSys d cb t0) rfl]; rfl)
      (by rw [play_of_pos now (mkSys d cb t0) rfl])
      (by rw [play_of_pos now (mkSys d cb t0) rfl]; rfl)
    refine ⟨h2.trans ?_, h1, h3⟩
    show 0 + k = k
    omega

/-- C10 (confirmed).  For every state with positive integer delay and
nonnegative elapsed time, `getRemainingTime()` lies in the closed interval
`[1, delay]`; in particular it is never 0, so even at an exact multiple of
the delay the next firing is a full delay away. -/
theorem C10_remaining_bounds (s : Sys) (now : Int) (hd : 0 < s.t._delay)
    (he : 0 ≤ getElapsedTime now s) :
    1 ≤ getRemainingTime now s ∧ getRemainingTime now s ≤ s.t._delay := by
  obtain ⟨h1, h2⟩ := ceilDiv_bounds (getElapsedTime now s + 1) s.t._delay hd
  simp only [getRemainingTime]
  rw [if_pos hd]
  omega

/-- Witness for `C10_remaining_bounds` on a fresh timer with delay 1000 and
elapsed time 0. -/
theorem C10_remaining_bounds_witness :
    1 ≤ getRemainingTime 5 (mkSys 1000 0 0) ∧
    getRemainingTime 5 (mkSys 1000 0 0) ≤ (mkSys 1000 0 0).t._delay :=
  C10_remaining_bounds (mkSys 1000 0 0) 5 (by decide) (by decide)

end JQueryTimer
